import Mathlib

/-!
Shallow embedding of `blpapi.py`: a Flask HTTP handler `current_price_api`
delegating to `get_bloomberg_price`, which opens a Bloomberg session, sends a
ReferenceDataRequest for `PX_LAST`, polls events, and maps every outcome to a
`(price, ticker_used, error)` triple.

Modelling choices:
* Strings are Lean `String`s over their `data : List Char`; Python truthiness
  of a string (`if s:`) is `pyTruthy`, i.e. nonempty data.  `str.isnumeric`
  is modelled for ASCII inputs as "nonempty and all digits"; `str.upper` is
  `pyUpper` (ASCII upper-casing); `str.split('.')` is `pySplitOn '.'` on the char list
  (same semantics: splitting "a.b.c" gives ["a","b","c"], "" gives [""]).
* The Bloomberg provider is a `Behavior`: whether `session.start()` and
  `session.openService` succeed, and the stream of events successive
  `session.nextEvent(5000)` calls deliver.  An exhausted stream behaves like
  the real API: further polls return TIMEOUT events (`pollLoop` on `[]`).
  An exception raised mid-flow (e.g. by `nextEvent` or while decoding a
  message) is the event `BlpEvent.exnRaised`; Python's `except Exception`
  block plus the `finally` are explicit in `get_bloomberg_price`, which is a
  total function: no exception escapes it.
* Each explicit `session.stop()` executed in the `try` body is counted by
  `tryBody`'s second component; the `finally` block contributes one more stop
  (the `Session` object always exists there), giving `LookupResult.stopCount`.
* Prices are `ℚ` (the code never computes with the float, it only carries it).
* `jsonify(...), code` is an `HttpResponse`: a status and an association list
  of JSON key/values.
-/

/-- JSON values appearing in this app's response bodies. -/
inductive JVal where
  | s (v : String)
  | q (v : ℚ)
deriving DecidableEq

/-- An HTTP response: status code plus JSON object body as key/value pairs. -/
structure HttpResponse where
  status : Nat
  body : List (String × JVal)
deriving DecidableEq

/-- Python truthiness of a string: `if s:` is true iff `s` is nonempty. -/
def pyTruthy (s : String) : Bool := !s.data.isEmpty

/-- Python truthiness of an optional string (`None` and `""` are falsy). -/
def pyTruthyOpt : Option String → Bool
  | none => false
  | some s => pyTruthy s

/-- `ticker_input.isnumeric()` for ASCII inputs: nonempty and all digits. -/
def pyIsNumeric (s : String) : Bool := !s.data.isEmpty && s.data.all Char.isDigit

/-- `str.upper()` for ASCII inputs: upper-case every character. -/
def pyUpper (s : String) : String := String.mk (s.data.map Char.toUpper)

/-- `str.split(c)` on char lists: always returns at least one (possibly empty)
segment; a separator at the end yields a trailing empty segment. -/
def pySplitOn (c : Char) : List Char → List (List Char)
  | [] => [[]]
  | x :: xs =>
    if x = c then [] :: pySplitOn c xs
    else
      match pySplitOn c xs with
      | g :: gs => (x :: g) :: gs
      | [] => [[x]]

/-- The ticker-normalization heuristic of `get_bloomberg_price`
(lines 58-70): digits-only input is a Japanese equity; input with a dot is
split, the second segment upper-cased decides `JT EQUITY` vs bare `EQUITY`;
otherwise upper-case and assume a US equity. -/
def normalizeTicker (s : String) : String :=
  if pyIsNumeric s then s ++ " JT EQUITY"
  else if s.data.contains '.' then
    let parts := pySplitOn '.' s.data
    let code := String.mk (parts.headD [])
    let market_suffix := if parts.length > 1 then pyUpper (String.mk (parts.getD 1 [])) else ""
    if market_suffix = "T" then code ++ " JT EQUITY" else code ++ " EQUITY"
  else pyUpper s ++ " US EQUITY"

/-! The error-message format strings of `get_bloomberg_price`. -/

def fmtFieldError (secName fieldId msg : String) : String :=
  "Field Error for " ++ secName ++ " (" ++ fieldId ++ "): " ++ msg

def fmtSecurityError (secName msg : String) : String :=
  "Security Error for " ++ secName ++ ": " ++ msg

def fmtNullValue (bt : String) : String := "PX_LAST is null for " ++ bt ++ "."

def fmtNotFound (bt : String) : String := "PX_LAST field not found for " ++ bt ++ "."

def fmtTimeout (bt : String) : String :=
  "Bloomberg API request timed out for " ++ bt ++ "."

def fmtResponseError (bt msg : String) : String :=
  "Response Error for " ++ bt ++ ": " ++ msg

def fmtExn (inp msg : String) : String :=
  "Exception while getting price for " ++ inp ++ ": " ++ msg

/-- The characters of `l` strictly before the first occurrence of `c`
(all of `l` when `c` does not occur). -/
def takeBefore (c : Char) : List Char → List Char
  | [] => []
  | x :: xs => if x = c then [] else x :: takeBefore c xs

/-- The characters of `l` strictly after the first occurrence of `c`
(`[]` when `c` does not occur). -/
def dropPast (c : Char) : List Char → List Char
  | [] => []
  | x :: xs => if x = c then xs else dropPast c xs

/-- The dotted-input rule exactly as the claim words it: the code is the text
before the first `.` and the suffix is ALL the text after the first `.`,
upper-cased.  Stated for comparison with `normalizeTicker`. -/
def normalizeTickerClaimedDotRule (s : String) : String :=
  let code := String.mk (takeBefore '.' s.data)
  let sfx := pyUpper (String.mk (dropPast '.' s.data))
  if sfx = "T" then code ++ " JT EQUITY" else code ++ " EQUITY"

/-- The dotted-input rule the source actually implements, stated
independently of `pySplitOn`: the suffix is only the text between the first
and the second `.` (the second segment of the dot-split), upper-cased. -/
def normalizeTickerDotRule (s : String) : String :=
  let code := String.mk (takeBefore '.' s.data)
  let sfx := pyUpper (String.mk (takeBefore '.' (dropPast '.' s.data)))
  if sfx = "T" then code ++ " JT EQUITY" else code ++ " EQUITY"

/-- One element of a message's `fieldExceptions` array. -/
structure FieldException where
  fieldId : String
  message : String
deriving DecidableEq

/-- One per-security record of a message's `securityData` array.
`px_last = none` means `fieldData` has no `PX_LAST` element; `some none`
means it is present but null; `some (some v)` is a value. -/
structure SecurityData where
  security : String
  fieldExceptions : List FieldException
  securityError : Option String
  px_last : Option (Option ℚ)
deriving DecidableEq

/-- One message of an event.  `corrMatch` is whether the message's first
correlation id equals the request's; `responseError` is the optional
top-level `responseError` element's message. -/
structure Msg where
  corrMatch : Bool
  responseError : Option String
  securityData : List SecurityData
deriving DecidableEq

/-- What one `session.nextEvent(5000)` call produces: a TIMEOUT event, a
RESPONSE event (the stream's terminal event), any other event carrying
messages (e.g. PARTIAL_RESPONSE), or an exception raised mid-flow. -/
inductive BlpEvent where
  | timeout
  | response (msgs : List Msg)
  | interim (msgs : List Msg)
  | exnRaised (msg : String)
deriving DecidableEq

/-- A provider behavior: outcome of `session.start()`, of
`session.openService("//blp/refdata")`, and the event stream. -/
structure Behavior where
  startOk : Bool
  openServiceOk : Bool
  events : List BlpEvent
deriving DecidableEq

/-- The inner `for k in range(...)` loop over a record's field exceptions
(lines 117-121): it assigns `error_message` once per exception, so the last
assignment survives. -/
def recordFieldExceptions (secName : String) (fes : List FieldException)
    (e : Option String) : Option String :=
  fes.foldl (fun _ fe => some (fmtFieldError secName fe.fieldId fe.message)) e

/-- The `for i in range(security_data_array.numValues())` loop
(lines 111-141), threading the `price` and `error_message` variables.
Field exceptions or a security error record an error and `continue`; a clean
record reads `PX_LAST` and `break`s (so later records are not examined). -/
def processRecords (bt : String) :
    List SecurityData → Option ℚ → Option String → Option ℚ × Option String
  | [], p, e => (p, e)
  | sd :: rest, p, e =>
    if !sd.fieldExceptions.isEmpty then
      processRecords bt rest p (recordFieldExceptions sd.security sd.fieldExceptions e)
    else
      match sd.securityError with
      | some m => processRecords bt rest p (some (fmtSecurityError sd.security m))
      | none =>
        match sd.px_last with
        | some (some v) => (some v, e)
        | some none => (p, some (fmtNullValue bt))
        | none => (p, some (fmtNotFound bt))

/-- The `for msg in ev` loop (lines 100-145).  Returns the updated price and
error and whether `request_processed` was set inside the loop.  A matching
message with a `responseError` records it and completes; after every message
the `if price is not None or error_message:` check (line 143) may complete. -/
def processMsgs (bt : String) :
    List Msg → Option ℚ → Option String → Option ℚ × Option String × Bool
  | [], p, e => (p, e, false)
  | m :: rest, p, e =>
    if m.corrMatch then
      match m.responseError with
      | some re => (p, some (fmtResponseError bt re), true)
      | none =>
        let pe := processRecords bt m.securityData p e
        if pe.1.isSome || pyTruthyOpt pe.2 then (pe.1, pe.2, true)
        else processMsgs bt rest pe.1 pe.2
    else
      if p.isSome || pyTruthyOpt e then (p, e, true)
      else processMsgs bt rest p e

/-- Outcome of the polling loop: normal completion with the final `price` and
`error_message`, or an exception escaping the loop. -/
inductive LoopRes where
  | done (p : Option ℚ) (e : Option String)
  | exn (m : String)
deriving DecidableEq

/-- The `while not request_processed` loop (lines 92-149).  A TIMEOUT event
records a timed-out error and breaks; an exhausted stream behaves the same
(the real `nextEvent` returns TIMEOUT events once nothing more arrives).
After the message loop, a RESPONSE event always ends the loop (line 148). -/
def pollLoop (bt : String) :
    List BlpEvent → Option ℚ → Option String → LoopRes
  | [], p, _ => .done p (some (fmtTimeout bt))
  | .timeout :: _, p, _ => .done p (some (fmtTimeout bt))
  | .exnRaised m :: _, _, _ => .exn m
  | .response msgs :: _, p, e =>
    let r := processMsgs bt msgs p e
    .done r.1 r.2.1
  | .interim msgs :: rest, p, e =>
    let r := processMsgs bt msgs p e
    if r.2.2 then .done r.1 r.2.1 else pollLoop bt rest r.1 r.2.1

/-- Result of the `try` body: an explicit `return` (lines 37, 43 or the final
fall-through values), or an exception, paired with the number of explicit
`session.stop()` calls executed inside the body (line 42 contributes one on
the openService-failure path). -/
inductive TryRes where
  | ret (p : Option ℚ) (t : Option String) (e : Option String)
  | exn (t : Option String) (m : String)
deriving DecidableEq

/-- The `try` body of `get_bloomberg_price` (lines 33-149). -/
def tryBody (b : Behavior) (inp : String) : TryRes × Nat :=
  if !b.startOk then
    (.ret none none (some "Failed to start Bloomberg session."), 0)
  else if !b.openServiceOk then
    (.ret none none (some "Failed to open //blp/refdata service."), 1)
  else
    let bt := normalizeTicker inp
    match pollLoop bt b.events none none with
    | .done p e => (.ret p (some bt) e, 0)
    | .exn m => (.exn (some bt) m, 0)

/-- The triple returned by `get_bloomberg_price`, plus the total count of
`session.stop()` calls made during the call. -/
structure LookupResult where
  price : Option ℚ
  ticker : Option String
  error : Option String
  stopCount : Nat
deriving DecidableEq

/-- `get_bloomberg_price` (lines 23-159): run the `try` body; the `except`
block converts an exception to an error string and clears the price; the
`finally` block performs one more `session.stop()` on every path. -/
def get_bloomberg_price (b : Behavior) (inp : String) : LookupResult :=
  match tryBody b inp with
  | (.ret p t e, n) => ⟨p, t, e, n + 1⟩
  | (.exn t m, n) => ⟨none, t, some (fmtExn inp m), n + 1⟩

/-- `"Could not retrieve price for ticker {ticker_input}"` (line 172). -/
def fallbackMsg (t : String) : String := "Could not retrieve price for ticker " ++ t

/-- The `/api/current_price` handler (lines 161-176), parametrized by the
lookup function it calls (so that "never calls the lookup" is expressible).
`tickerParam` is `request.args.get('ticker')`; `if not ticker_input` rejects
both a missing and an empty parameter.  On a price, respond 200 with
`bloomberg_ticker or ticker_input`; otherwise 404 with `error or fallback`,
appending the Bloomberg ticker when it is truthy and differs. -/
def current_price_api (lookup : String → LookupResult) (tickerParam : Option String) :
    HttpResponse :=
  match tickerParam with
  | none => ⟨400, [("error", JVal.s "Ticker parameter is required")]⟩
  | some t =>
    if !pyTruthy t then ⟨400, [("error", JVal.s "Ticker parameter is required")]⟩
    else
      let r := lookup t
      match r.price with
      | some p =>
        let tk := match r.ticker with
          | some bt => if pyTruthy bt then bt else t
          | none => t
        ⟨200, [("ticker", JVal.s tk), ("price", JVal.q p)]⟩
      | none =>
        let base := match r.error with
          | some e => if pyTruthy e then e else fallbackMsg t
          | none => fallbackMsg t
        let msg := match r.ticker with
          | some bt =>
            if pyTruthy bt && bt ≠ t then
              base ++ " (used Bloomberg ticker: " ++ bt ++ ")"
            else base
          | none => base
        ⟨404, [("error", JVal.s msg)]⟩

/-- The 404 error message exactly as claim C8 words it: the recorded error
string if one exists (otherwise the generic fallback naming the raw input),
with the normalized ticker appended in parentheses exactly when it is
non-None and differs from the raw input. -/
def claimedNotFoundMsg (r : LookupResult) (raw : String) : String :=
  let base := match r.error with
    | some e => e
    | none => fallbackMsg raw
  match r.ticker with
  | some bt => if bt ≠ raw then base ++ " (used Bloomberg ticker: " ++ bt ++ ")" else base
  | none => base

/-- A provider behavior whose single RESPONSE event carries one matched
message with two per-security records: the first has a security-level error,
the second a valid `PX_LAST`.  Used to exhibit a lookup that records both an
error and a price. -/
def behaviorBothC9 : Behavior :=
  ⟨true, true,
    [BlpEvent.response
      [⟨true, none,
        [⟨"BAD9 US EQUITY", [], some "Unknown/Invalid Security", none⟩,
         ⟨"MSFT US EQUITY", [], none, some (some 5)⟩]⟩]]⟩

/-! ### Helper lemmas -/

/-- An ASCII letter is not a digit. -/
theorem isAlpha_not_isDigit (c : Char) (h : c.isAlpha = true) : c.isDigit = false := by
  simp only [Char.isAlpha, Char.isUpper, Char.isLower, Char.isDigit,
    Bool.or_eq_true, Bool.and_eq_true, decide_eq_true_eq, UInt32.le_def, BitVec.le_def] at h ⊢
  simp only [Bool.and_eq_false_iff, decide_eq_false_iff_not, UInt32.le_def, BitVec.le_def]
  simp only [show (UInt32.toBitVec 48).toNat = 48 from rfl,
    show (UInt32.toBitVec 57).toNat = 57 from rfl,
    show (UInt32.toBitVec 65).toNat = 65 from rfl,
    show (UInt32.toBitVec 90).toNat = 90 from rfl,
    show (UInt32.toBitVec 97).toNat = 97 from rfl,
    show (UInt32.toBitVec 122).toNat = 122 from rfl] at h ⊢
  omega

theorem pyTruthy_of_ne_empty (s : String) (h : s ≠ "") : pyTruthy s = true := by
  cases hd : s.data with
  | nil => exact absurd (String.ext (by rw [hd])) h
  | cons a l => simp [pyTruthy, hd]

theorem isEmpty_append (l₁ l₂ : List Char) :
    (l₁ ++ l₂).isEmpty = (l₁.isEmpty && l₂.isEmpty) := by
  cases l₁ <;> simp

theorem pyTruthy_append (a b : String) :
    pyTruthy (a ++ b) = (pyTruthy a || pyTruthy b) := by
  simp [pyTruthy, String.data_append, isEmpty_append]

theorem pyTruthy_append_left (a b : String) (h : pyTruthy a = true) :
    pyTruthy (a ++ b) = true := by
  simp [pyTruthy_append, h]

/-- Every error message format of `get_bloomberg_price` is a nonempty string. -/
theorem fmt_truthy :
    (∀ n f m, pyTruthy (fmtFieldError n f m) = true) ∧
    (∀ n m, pyTruthy (fmtSecurityError n m) = true) ∧
    (∀ bt, pyTruthy (fmtNullValue bt) = true) ∧
    (∀ bt, pyTruthy (fmtNotFound bt) = true) ∧
    (∀ bt, pyTruthy (fmtTimeout bt) = true) ∧
    (∀ bt m, pyTruthy (fmtResponseError bt m) = true) ∧
    (∀ i m, pyTruthy (fmtExn i m) = true) := by
  refine ⟨fun n f m => ?_, fun n m => ?_, fun bt => ?_, fun bt => ?_, fun bt => ?_,
    fun bt m => ?_, fun i m => ?_⟩ <;>
    simp only [fmtFieldError, fmtSecurityError, fmtNullValue, fmtNotFound, fmtTimeout,
      fmtResponseError, fmtExn] <;>
    repeat' apply pyTruthy_append_left
  all_goals decide

/-- Errors threaded through the loops are `none` or nonempty. -/
def errOk (e : Option String) : Prop := ∀ s, e = some s → pyTruthy s = true

theorem errOk_none : errOk none := by intro s hs; cases hs

theorem errOk_some {m : String} (h : pyTruthy m = true) : errOk (some m) := by
  intro s hs; cases hs; exact h

theorem pyTruthy_append_right (a b : String) (h : pyTruthy b = true) :
    pyTruthy (a ++ b) = true := by
  simp [pyTruthy_append, h]

theorem pySplitOn_ne_nil (c : Char) (l : List Char) : pySplitOn c l ≠ [] := by
  induction l with
  | nil => simp [pySplitOn]
  | cons x xs ih =>
    by_cases hx : x = c
    · simp [pySplitOn, hx]
    · cases hps : pySplitOn c xs with
      | nil => exact absurd hps ih
      | cons g gs => simp [pySplitOn, hx, hps]

theorem pySplitOn_headD (c : Char) (l : List Char) :
    (pySplitOn c l).headD [] = takeBefore c l := by
  induction l with
  | nil => rfl
  | cons x xs ih =>
    by_cases hx : x = c
    · simp [pySplitOn, takeBefore, hx]
    · cases hps : pySplitOn c xs with
      | nil => exact absurd hps (pySplitOn_ne_nil c xs)
      | cons g gs =>
        have hg : g = takeBefore c xs := by simpa [hps] using ih
        simp [pySplitOn, takeBefore, hx, hps, hg]

theorem pySplitOn_of_mem (c : Char) (l : List Char) (h : c ∈ l) :
    pySplitOn c l = takeBefore c l :: pySplitOn c (dropPast c l) := by
  induction l with
  | nil => cases h
  | cons x xs ih =>
    by_cases hx : x = c
    · simp [pySplitOn, takeBefore, dropPast, hx]
    · have hxs : c ∈ xs := by
        cases h with
        | head => exact absurd rfl hx
        | tail _ hmem => exact hmem
      simp [pySplitOn, takeBefore, dropPast, hx, ih hxs]

theorem recordFieldExceptions_eq_last (n : String) (fes : List FieldException)
    (e : Option String) (h : fes ≠ []) :
    recordFieldExceptions n fes e =
      some (fmtFieldError n (fes.getLastD ⟨"", ""⟩).fieldId
        (fes.getLastD ⟨"", ""⟩).message) := by
  induction fes generalizing e with
  | nil => exact absurd rfl h
  | cons x xs ih =>
    cases xs with
    | nil => rfl
    | cons y ys =>
      rw [show recordFieldExceptions n (x :: y :: ys) e =
          recordFieldExceptions n (y :: ys) (some (fmtFieldError n x.fieldId x.message))
          from rfl,
        ih (some (fmtFieldError n x.fieldId x.message)) (by simp)]
      simp [List.getLastD_cons]

theorem recordFieldExceptions_errOk (n : String) (fes : List FieldException)
    (e : Option String) (he : errOk e) : errOk (recordFieldExceptions n fes e) := by
  cases fes with
  | nil => exact he
  | cons x xs =>
    rw [recordFieldExceptions_eq_last n (x :: xs) e (by simp)]
    exact errOk_some (fmt_truthy.1 _ _ _)

theorem processRecords_errOk (bt : String) (l : List SecurityData)
    (p : Option ℚ) (e : Option String) (he : errOk e) :
    errOk (processRecords bt l p e).2 := by
  induction l generalizing p e with
  | nil => exact he
  | cons sd rest ih =>
    by_cases hf : sd.fieldExceptions.isEmpty
    · cases hse : sd.securityError with
      | some m =>
        simp only [processRecords, hf, Bool.not_true, if_false, hse]
        exact ih _ _ (errOk_some (fmt_truthy.2.1 _ _))
      | none =>
        cases hpx : sd.px_last with
        | none =>
          simp only [processRecords, hf, Bool.not_true, if_false, hse, hpx]
          exact errOk_some (fmt_truthy.2.2.2.1 _)
        | some v =>
          cases v with
          | none =>
            simp only [processRecords, hf, Bool.not_true, if_false, hse, hpx]
            exact errOk_some (fmt_truthy.2.2.1 _)
          | some q =>
            simp only [processRecords, hf, Bool.not_true, if_false, hse, hpx]
            exact he
    · simp only [processRecords, Bool.not_eq_true] at hf ⊢
      simp only [hf, Bool.not_false, if_true]
      exact ih _ _ (recordFieldExceptions_errOk _ _ _ he)

theorem processMsgs_errOk (bt : String) (l : List Msg) (p : Option ℚ)
    (e : Option String) (he : errOk e) : errOk (processMsgs bt l p e).2.1 := by
  induction l generalizing p e with
  | nil => exact he
  | cons m rest ih =>
    by_cases hc : m.corrMatch
    · cases hre : m.responseError with
      | some re =>
        simp only [processMsgs, hc, if_true, hre]
        exact errOk_some (fmt_truthy.2.2.2.2.2.1 _ _)
      | none =>
        have hpe := processRecords_errOk bt m.securityData p e he
        by_cases hbr : ((processRecords bt m.securityData p e).1.isSome
            || pyTruthyOpt (processRecords bt m.securityData p e).2) = true
        · simp only [processMsgs, hc, if_true, hre, hbr]
          exact hpe
        · simp only [processMsgs, hc, if_true, hre, Bool.not_eq_true] at hbr ⊢
          simp only [hbr, if_false]
          exact ih _ _ hpe
    · simp only [Bool.not_eq_true] at hc
      by_cases hbr : (p.isSome || pyTruthyOpt e) = true
      · simp only [processMsgs, hc, if_false, hbr]
        exact he
      · simp only [Bool.not_eq_true] at hbr
        simp only [processMsgs, hc, if_false, hbr]
        exact ih _ _ he

theorem pollLoop_errOk (bt : String) (evs : List BlpEvent) (p : Option ℚ)
    (e : Option String) (he : errOk e) (p' : Option ℚ) (e' : Option String)
    (hdone : pollLoop bt evs p e = .done p' e') : errOk e' := by
  induction evs generalizing p e with
  | nil =>
    simp only [pollLoop, LoopRes.done.injEq] at hdone
    rw [← hdone.2]
    exact errOk_some (fmt_truthy.2.2.2.2.1 _)
  | cons ev rest ih =>
    cases ev with
    | timeout =>
      simp only [pollLoop, LoopRes.done.injEq] at hdone
      rw [← hdone.2]
      exact errOk_some (fmt_truthy.2.2.2.2.1 _)
    | exnRaised m => simp [pollLoop] at hdone
    | response msgs =>
      simp only [pollLoop, LoopRes.done.injEq] at hdone
      rw [← hdone.2]
      exact processMsgs_errOk bt msgs p e he
    | interim msgs =>
      have hm := processMsgs_errOk bt msgs p e he
      by_cases hpr : (processMsgs bt msgs p e).2.2 = true
      · simp only [pollLoop, hpr, if_true, LoopRes.done.injEq] at hdone
        rw [← hdone.2]
        exact hm
      · simp only [Bool.not_eq_true] at hpr
        simp only [pollLoop, hpr, if_false] at hdone
        exact ih _ _ hm hdone

/-- Exhaustive case analysis of `get_bloomberg_price`: start failure, service
open failure, normal completion of the polling loop, or a caught exception. -/
theorem get_price_cases (b : Behavior) (inp : String) :
    (b.startOk = false ∧
      get_bloomberg_price b inp =
        ⟨none, none, some "Failed to start Bloomberg session.", 1⟩) ∨
    (b.startOk = true ∧ b.openServiceOk = false ∧
      get_bloomberg_price b inp =
        ⟨none, none, some "Failed to open //blp/refdata service.", 2⟩) ∨
    (b.startOk = true ∧ b.openServiceOk = true ∧
      ((∃ p e, pollLoop (normalizeTicker inp) b.events none none = .done p e ∧
          get_bloomberg_price b inp = ⟨p, some (normalizeTicker inp), e, 1⟩) ∨
        (∃ m, pollLoop (normalizeTicker inp) b.events none none = .exn m ∧
          get_bloomberg_price b inp =
            ⟨none, some (normalizeTicker inp), some (fmtExn inp m), 1⟩))) := by
  by_cases hs : b.startOk = true
  · by_cases ho : b.openServiceOk = true
    · right; right
      refine ⟨hs, ho, ?_⟩
      cases hp : pollLoop (normalizeTicker inp) b.events none none with
      | done p e =>
        exact Or.inl ⟨p, e, rfl, by simp [get_bloomberg_price, tryBody, hs, ho, hp]⟩
      | exn m =>
        exact Or.inr ⟨m, rfl, by simp [get_bloomberg_price, tryBody, hs, ho, hp]⟩
    · simp only [Bool.not_eq_true] at ho
      exact Or.inr (Or.inl ⟨hs, ho, by simp [get_bloomberg_price, tryBody, hs, ho]⟩)
  · simp only [Bool.not_eq_true] at hs
    exact Or.inl ⟨hs, by simp [get_bloomberg_price, tryBody, hs]⟩

/-- Every branch of the normalizer produces a nonempty string. -/
theorem normalizeTicker_truthy (s : String) : pyTruthy (normalizeTicker s) = true := by
  unfold normalizeTicker
  repeat' first | split | dsimp only
  all_goals first
    | exact pyTruthy_append_right _ " JT EQUITY" (by decide)
    | exact pyTruthy_append_right _ " EQUITY" (by decide)
    | exact pyTruthy_append_right _ " US EQUITY" (by decide)

/-- The error returned by a lookup is `None` or a nonempty string. -/
theorem lookup_errOk (b : Behavior) (inp : String) :
    errOk (get_bloomberg_price b inp).error := by
  rcases get_price_cases b inp with ⟨_, h⟩ | ⟨_, _, h⟩ |
    ⟨_, _, ⟨p, e, hp, h⟩ | ⟨m, hp, h⟩⟩
  · rw [h]; exact errOk_some (by decide)
  · rw [h]; exact errOk_some (by decide)
  · rw [h]; exact pollLoop_errOk _ _ _ _ errOk_none _ _ hp
  · rw [h]; exact errOk_some (fmt_truthy.2.2.2.2.2.2 _ _)

/-- The ticker returned by a lookup is `None` or the normalized ticker. -/
theorem lookup_ticker_shape (b : Behavior) (inp : String) :
    (get_bloomberg_price b inp).ticker = none ∨
    (get_bloomberg_price b inp).ticker = some (normalizeTicker inp) := by
  rcases get_price_cases b inp with ⟨_, h⟩ | ⟨_, _, h⟩ |
    ⟨_, _, ⟨p, e, hp, h⟩ | ⟨m, hp, h⟩⟩ <;> simp [h]

theorem infix_append_of_infix {l t : List Char} (h : l <:+: t) (r : List Char) :
    l <:+: t ++ r :=
  h.trans (List.prefix_append t r).isInfix

theorem infix_data_append {l : List Char} (a b : String) (h : l <:+: a.data) :
    l <:+: (a ++ b).data := by
  rw [String.data_append]
  exact infix_append_of_infix h _

/-- The timeout error message contains the words "timed out". -/
theorem timedOut_in_msg (bt : String) :
    "timed out".data <:+: (fmtTimeout bt).data := by
  have h1 : "timed out".data <:+: "Bloomberg API request timed out for ".data := by decide
  exact infix_data_append _ "." (infix_data_append _ bt h1)

/-! ### Claims -/

/-- Claim C1, as stated, is false: on the openService-failure path
`session.stop()` runs twice — once explicitly at line 42 and once in the
`finally` block — so "closed exactly once on every exit path" fails there. -/
theorem C1_counterexample :
    (get_bloomberg_price ⟨true, false, []⟩ "7203").stopCount = 2 ∧
    ¬((get_bloomberg_price ⟨true, false, []⟩ "7203").stopCount = 1) :=
  ⟨rfl, by decide⟩

/-- Claim C1 amended: the session is stopped exactly once on every exit path
(normal return, start failure, timeout, exception) EXCEPT the service-open
failure path, where it is stopped twice (line 42 plus the finally block); in
particular it is always stopped at least once. -/
theorem C1_session_stop_amended (b : Behavior) (inp : String) :
    (get_bloomberg_price b inp).stopCount =
      if b.startOk && !b.openServiceOk then 2 else 1 := by
  rcases get_price_cases b inp with ⟨hs, h⟩ | ⟨hs, ho, h⟩ |
    ⟨hs, ho, ⟨p, e, _, h⟩ | ⟨m, _, h⟩⟩
  · simp [h, hs]
  · simp [h, hs, ho]
  · simp [h, hs, ho]
  · simp [h, hs, ho]

/-- Claim C2, as stated, is false: with two field exceptions on one record,
the error recorded by `get_bloomberg_price` is the SECOND (last) one, not
the first. -/
theorem C2_counterexample :
    (get_bloomberg_price
        ⟨true, true, [BlpEvent.response [⟨true, none,
          [⟨"S", [⟨"F1", "m1"⟩, ⟨"F2", "m2"⟩], none, none⟩]⟩]]⟩ "7203").error =
      some (fmtFieldError "S" "F2" "m2") ∧
    ¬((get_bloomberg_price
        ⟨true, true, [BlpEvent.response [⟨true, none,
          [⟨"S", [⟨"F1", "m1"⟩, ⟨"F2", "m2"⟩], none, none⟩]⟩]]⟩ "7203").error =
      some (fmtFieldError "S" "F1" "m1")) := by
  refine ⟨rfl, fun hcontra => ?_⟩
  rw [show (get_bloomberg_price
        ⟨true, true, [BlpEvent.response [⟨true, none,
          [⟨"S", [⟨"F1", "m1"⟩, ⟨"F2", "m2"⟩], none, none⟩]⟩]]⟩ "7203").error =
      some (fmtFieldError "S" "F2" "m2") from rfl] at hcontra
  exact absurd hcontra (by decide)

/-- Claim C2 amended: when a per-security record carries a non-empty list of
field-level exceptions, the recorded error description is that of the LAST
field exception in the list, and processing continues with the next
per-security record. -/
theorem C2_field_error_amended (bt : String) (sd : SecurityData)
    (rest : List SecurityData) (p : Option ℚ) (e : Option String)
    (h : sd.fieldExceptions ≠ []) :
    processRecords bt (sd :: rest) p e =
      processRecords bt rest p
        (some (fmtFieldError sd.security
          (sd.fieldExceptions.getLastD ⟨"", ""⟩).fieldId
          (sd.fieldExceptions.getLastD ⟨"", ""⟩).message)) := by
  have hne : sd.fieldExceptions.isEmpty = false := by
    cases hf : sd.fieldExceptions with
    | nil => exact absurd hf h
    | cons x xs => rfl
  simp only [processRecords, hne, Bool.not_false, if_true]
  rw [recordFieldExceptions_eq_last _ _ _ h]

theorem C2_field_error_amended_witness :
    processRecords "7203 JT EQUITY"
        [⟨"S", [⟨"F1", "m1"⟩, ⟨"F2", "m2"⟩], none, none⟩] none none =
      processRecords "7203 JT EQUITY" [] none
        (some (fmtFieldError "S" "F2" "m2")) :=
  C2_field_error_amended "7203 JT EQUITY"
    ⟨"S", [⟨"F1", "m1"⟩, ⟨"F2", "m2"⟩], none, none⟩ [] none none (by decide)

/-- Claim C3, as stated, is false: the suffix the code compares with `"T"` is
only `parts[1]` of the dot-split (the text between the first and the second
dot), not all text after the first dot.  On `"7203.T.X"` the code yields
`"7203 JT EQUITY"`, while the claim's rule (suffix `"T.X"`) would yield
`"7203 EQUITY"`. -/
theorem C3_counterexample :
    normalizeTicker "7203.T.X" = "7203 JT EQUITY" ∧
    normalizeTickerClaimedDotRule "7203.T.X" = "7203 EQUITY" ∧
    ¬(normalizeTicker "7203.T.X" = normalizeTickerClaimedDotRule "7203.T.X") := by
  refine ⟨rfl, rfl, fun hcontra => ?_⟩
  rw [show normalizeTicker "7203.T.X" = "7203 JT EQUITY" from rfl,
    show normalizeTickerClaimedDotRule "7203.T.X" = "7203 EQUITY" from rfl] at hcontra
  exact absurd hcontra (by decide)

/-- Claim C3 amended: for every non-numeric input containing a `.`, the
normalizer splits it into a code (text before the first `.`) and a suffix
equal to the text between the first and the second `.` (the second segment
of the dot-split), upper-cased; if that suffix equals `"T"` the result is
`"{code} JT EQUITY"`, otherwise `"{code} EQUITY"`.  In particular
`"7203.X"` normalizes to `"7203 EQUITY"`. -/
theorem C3_dot_rule_amended :
    (∀ s : String, pyIsNumeric s = false → '.' ∈ s.data →
      normalizeTicker s = normalizeTickerDotRule s) ∧
    normalizeTicker "7203.X" = "7203 EQUITY" := by
  refine ⟨fun s hnum hdot => ?_, rfl⟩
  have hcont : s.data.contains '.' = true := by simpa using hdot
  have hsplit := pySplitOn_of_mem '.' s.data hdot
  have hlen : (pySplitOn '.' s.data).length > 1 := by
    rw [hsplit]
    cases hq : pySplitOn '.' (dropPast '.' s.data) with
    | nil => exact absurd hq (pySplitOn_ne_nil _ _)
    | cons g gs => simp [hq]
  have hheadD : (pySplitOn '.' s.data).headD [] = takeBefore '.' s.data :=
    pySplitOn_headD '.' s.data
  have hgetD : (pySplitOn '.' s.data).getD 1 [] =
      takeBefore '.' (dropPast '.' s.data) := by
    rw [hsplit, List.getD_cons_succ, ← pySplitOn_headD]
    cases hq : pySplitOn '.' (dropPast '.' s.data) with
    | nil => exact absurd hq (pySplitOn_ne_nil _ _)
    | cons g gs => simp [hq, List.getD_cons_zero]
  have hnum' : ¬(pyIsNumeric s = true) := by simp [hnum]
  unfold normalizeTicker normalizeTickerDotRule
  rw [if_neg hnum', if_pos hcont]
  dsimp only
  rw [if_pos hlen, hheadD, hgetD]

theorem C3_dot_rule_amended_witness :
    pyIsNumeric "7203.X" = false ∧ '.' ∈ "7203.X".data ∧
    normalizeTicker "7203.X" = normalizeTickerDotRule "7203.X" :=
  ⟨by decide, by decide, C3_dot_rule_amended.1 "7203.X" (by decide) (by decide)⟩

/-- Claim C4: an exception raised inside the request flow is caught inside
`get_bloomberg_price` (the function is total), the result's error is a
non-None string describing the exception, and the price is None; the ticker
computed before the exception is kept. -/
theorem C4_exception_caught (b : Behavior) (inp : String) (t : Option String)
    (m : String) (h : (tryBody b inp).1 = TryRes.exn t m) :
    (get_bloomberg_price b inp).price = none ∧
    (get_bloomberg_price b inp).error = some (fmtExn inp m) ∧
    (get_bloomberg_price b inp).ticker = t := by
  rcases htb : tryBody b inp with ⟨tr, n⟩
  rw [htb] at h
  simp only at h
  subst h
  simp [get_bloomberg_price, htb]

theorem C4_exception_caught_witness :
    (tryBody ⟨true, true, [BlpEvent.exnRaised "boom"]⟩ "MSFT").1 =
      TryRes.exn (some (normalizeTicker "MSFT")) "boom" ∧
    (get_bloomberg_price ⟨true, true, [BlpEvent.exnRaised "boom"]⟩ "MSFT").price = none ∧
    (get_bloomberg_price ⟨true, true, [BlpEvent.exnRaised "boom"]⟩ "MSFT").error =
      some (fmtExn "MSFT" "boom") ∧
    (get_bloomberg_price ⟨true, true, [BlpEvent.exnRaised "boom"]⟩ "MSFT").ticker =
      some (normalizeTicker "MSFT") := by
  have h := C4_exception_caught ⟨true, true, [BlpEvent.exnRaised "boom"]⟩ "MSFT"
    (some (normalizeTicker "MSFT")) "boom" rfl
  exact ⟨rfl, h.1, h.2.1, h.2.2⟩

/-- Claim C5: when the first provider event is a timeout, the lookup records
no price and the timed-out error, polling stops (the result is independent
of the remaining events), and the HTTP response is 404 with a JSON error
message containing the words "timed out". -/
theorem C5_timeout_404 (b : Behavior) (inp : String) (rest : List BlpEvent)
    (hs : b.startOk = true) (ho : b.openServiceOk = true)
    (he : b.events = BlpEvent.timeout :: rest) (hinp : inp ≠ "") :
    (get_bloomberg_price b inp).price = none ∧
    (get_bloomberg_price b inp).error = some (fmtTimeout (normalizeTicker inp)) ∧
    (current_price_api (get_bloomberg_price b) (some inp)).status = 404 ∧
    ∃ m, (current_price_api (get_bloomberg_price b) (some inp)).body =
        [("error", JVal.s m)] ∧ "timed out".data <:+: m.data := by
  have hlookup : get_bloomberg_price b inp =
      ⟨none, some (normalizeTicker inp), some (fmtTimeout (normalizeTicker inp)), 1⟩ := by
    simp [get_bloomberg_price, tryBody, hs, ho, he, pollLoop]
  have htr : pyTruthy inp = true := pyTruthy_of_ne_empty inp hinp
  have hft : pyTruthy (fmtTimeout (normalizeTicker inp)) = true :=
    fmt_truthy.2.2.2.2.1 (normalizeTicker inp)
  refine ⟨by simp [hlookup], by simp [hlookup], ?_, ?_⟩
  · by_cases hbt : normalizeTicker inp = inp
    · have hft' : pyTruthy (fmtTimeout inp) = true := by rw [hbt] at hft; exact hft
      have hresp : current_price_api (get_bloomberg_price b) (some inp) =
          ⟨404, [("error", JVal.s (fmtTimeout inp))]⟩ := by
        simp [current_price_api, htr, hlookup, hft', hbt]
      simp [hresp]
    · have hresp : current_price_api (get_bloomberg_price b) (some inp) =
          ⟨404, [("error", JVal.s (fmtTimeout (normalizeTicker inp)
              ++ " (used Bloomberg ticker: " ++ normalizeTicker inp ++ ")"))]⟩ := by
        simp [current_price_api, htr, hlookup, hft, hbt, normalizeTicker_truthy]
      simp [hresp]
  · by_cases hbt : normalizeTicker inp = inp
    · have hft' : pyTruthy (fmtTimeout inp) = true := by rw [hbt] at hft; exact hft
      have hresp : current_price_api (get_bloomberg_price b) (some inp) =
          ⟨404, [("error", JVal.s (fmtTimeout inp))]⟩ := by
        simp [current_price_api, htr, hlookup, hft', hbt]
      exact ⟨fmtTimeout inp, by simp [hresp], timedOut_in_msg inp⟩
    · have hresp : current_price_api (get_bloomberg_price b) (some inp) =
          ⟨404, [("error", JVal.s (fmtTimeout (normalizeTicker inp)
              ++ " (used Bloomberg ticker: " ++ normalizeTicker inp ++ ")"))]⟩ := by
        simp [current_price_api, htr, hlookup, hft, hbt, normalizeTicker_truthy]
      refine ⟨fmtTimeout (normalizeTicker inp) ++ " (used Bloomberg ticker: "
          ++ normalizeTicker inp ++ ")", by simp [hresp], ?_⟩
      exact infix_data_append _ ")"
        (infix_data_append _ (normalizeTicker inp)
          (infix_data_append _ " (used Bloomberg ticker: " (timedOut_in_msg _)))

theorem C5_timeout_404_witness :
    (get_bloomberg_price ⟨true, true, [BlpEvent.timeout]⟩ "7203").price = none ∧
    (get_bloomberg_price ⟨true, true, [BlpEvent.timeout]⟩ "7203").error =
      some (fmtTimeout (normalizeTicker "7203")) ∧
    (current_price_api (get_bloomberg_price ⟨true, true, [BlpEvent.timeout]⟩)
      (some "7203")).status = 404 ∧
    ∃ m, (current_price_api (get_bloomberg_price ⟨true, true, [BlpEvent.timeout]⟩)
        (some "7203")).body = [("error", JVal.s m)] ∧
      "timed out".data <:+: m.data :=
  C5_timeout_404 ⟨true, true, [BlpEvent.timeout]⟩ "7203" [] rfl rfl rfl (by decide)

/-- Claim C6: a GET request with no `ticker` query parameter gets HTTP 400
with exactly the body `{"error": "Ticker parameter is required"}`; the
response is the same for every lookup function, so no provider session is
ever opened. -/
theorem C6_missing_ticker (lookup : String → LookupResult) :
    current_price_api lookup none =
      ⟨400, [("error", JVal.s "Ticker parameter is required")]⟩ := rfl

/-- Claim C7: an input containing a letter and no dot normalizes to the
upper-cased input followed by `" US EQUITY"`. -/
theorem C7_letter_no_dot (s : String) (hletter : ∃ c ∈ s.data, c.isAlpha = true)
    (hnodot : '.' ∉ s.data) :
    normalizeTicker s = pyUpper s ++ " US EQUITY" := by
  obtain ⟨c, hc, ha⟩ := hletter
  have hnum : pyIsNumeric s = false := by
    have hall : s.data.all Char.isDigit = false := by
      by_contra hcon
      simp only [Bool.not_eq_false] at hcon
      have hd := List.all_eq_true.mp hcon c hc
      rw [isAlpha_not_isDigit c ha] at hd
      exact absurd hd (by simp)
    simp [pyIsNumeric, hall]
  have hcont : s.data.contains '.' = false := by simpa using hnodot
  simp [normalizeTicker, hnum, hcont, hnodot]

theorem C7_letter_no_dot_witness :
    normalizeTicker "msft" = pyUpper "msft" ++ " US EQUITY" ∧
    normalizeTicker "msft" = "MSFT US EQUITY" :=
  ⟨C7_letter_no_dot "msft" ⟨'m', by decide, by decide⟩ (by decide), rfl⟩

/-- Claim C8: a lookup with no price yields HTTP 404 whose single "error"
entry is exactly the message the claim describes: the recorded error if one
exists, else the generic could-not-retrieve fallback naming the raw input,
with the normalized ticker appended in parentheses exactly when it is
non-None and differs from the raw input. -/
theorem C8_not_found_404 (b : Behavior) (inp : String) (hinp : inp ≠ "")
    (hnone : (get_bloomberg_price b inp).price = none) :
    current_price_api (get_bloomberg_price b) (some inp) =
      ⟨404, [("error",
        JVal.s (claimedNotFoundMsg (get_bloomberg_price b inp) inp))]⟩ := by
  have htr : pyTruthy inp = true := pyTruthy_of_ne_empty inp hinp
  have herr := lookup_errOk b inp
  have htk := lookup_ticker_shape b inp
  rcases hr : get_bloomberg_price b inp with ⟨p, tk, er, n⟩
  rw [hr] at hnone herr htk
  have hp : p = none := hnone
  subst hp
  have herr' : errOk er := herr
  have htk' : tk = none ∨ tk = some (normalizeTicker inp) := htk
  rcases htk' with rfl | rfl
  · cases er with
    | none => simp [current_price_api, claimedNotFoundMsg, hr, htr]
    | some e =>
      have hte : pyTruthy e = true := herr' e rfl
      simp [current_price_api, claimedNotFoundMsg, hr, htr, hte]
  · have hbt : pyTruthy (normalizeTicker inp) = true := normalizeTicker_truthy inp
    cases er with
    | none =>
      by_cases heq : normalizeTicker inp = inp
      · simp [current_price_api, claimedNotFoundMsg, hr, htr, hbt, heq]
      · simp [current_price_api, claimedNotFoundMsg, hr, htr, hbt, heq]
    | some e =>
      have hte : pyTruthy e = true := herr' e rfl
      by_cases heq : normalizeTicker inp = inp
      · simp [current_price_api, claimedNotFoundMsg, hr, htr, hte, hbt, heq]
      · simp [current_price_api, claimedNotFoundMsg, hr, htr, hte, hbt, heq]

theorem C8_not_found_404_witness :
    current_price_api (get_bloomberg_price ⟨false, true, []⟩) (some "7203") =
      ⟨404, [("error",
        JVal.s (claimedNotFoundMsg
          (get_bloomberg_price ⟨false, true, []⟩ "7203") "7203"))]⟩ :=
  C8_not_found_404 ⟨false, true, []⟩ "7203" (by decide) rfl

/-- Claim C9: a lookup can record both a price and an error (security error
on the first record, valid PX_LAST on the second), and whenever the price is
non-None the handler answers 200 with that price, discarding the error (the
body has only "ticker" and "price" entries). -/
theorem C9_price_and_error :
    ((get_bloomberg_price behaviorBothC9 "MSFT").price = some 5 ∧
      (get_bloomberg_price behaviorBothC9 "MSFT").error =
        some (fmtSecurityError "BAD9 US EQUITY" "Unknown/Invalid Security")) ∧
    ∀ (lookup : String → LookupResult) (t : String) (p : ℚ),
      t ≠ "" → (lookup t).price = some p →
      (current_price_api lookup (some t)).status = 200 ∧
      ∃ tk, (current_price_api lookup (some t)).body =
          [("ticker", JVal.s tk), ("price", JVal.q p)] := by
  refine ⟨⟨rfl, rfl⟩, fun lookup t p hne hp => ?_⟩
  have htr : pyTruthy t = true := pyTruthy_of_ne_empty t hne
  cases htk : (lookup t).ticker with
  | none =>
    have hresp : current_price_api lookup (some t) =
        ⟨200, [("ticker", JVal.s t), ("price", JVal.q p)]⟩ := by
      simp [current_price_api, htr, hp, htk]
    exact ⟨by simp [hresp], t, by simp [hresp]⟩
  | some bt =>
    by_cases hb : pyTruthy bt = true
    · have hresp : current_price_api lookup (some t) =
          ⟨200, [("ticker", JVal.s bt), ("price", JVal.q p)]⟩ := by
        simp [current_price_api, htr, hp, htk, hb]
      exact ⟨by simp [hresp], bt, by simp [hresp]⟩
    · have hb' : pyTruthy bt = false := by simpa using hb
      have hresp : current_price_api lookup (some t) =
          ⟨200, [("ticker", JVal.s t), ("price", JVal.q p)]⟩ := by
        simp [current_price_api, htr, hp, htk, hb']
      exact ⟨by simp [hresp], t, by simp [hresp]⟩

theorem C9_price_and_error_witness :
    (current_price_api (fun _ => ⟨some 5, some "X US EQUITY", some "boom", 1⟩)
      (some "MSFT")).status = 200 ∧
    ∃ tk, (current_price_api (fun _ => ⟨some 5, some "X US EQUITY", some "boom", 1⟩)
        (some "MSFT")).body = [("ticker", JVal.s tk), ("price", JVal.q 5)] :=
  C9_price_and_error.2 (fun _ => ⟨some 5, some "X US EQUITY", some "boom", 1⟩)
    "MSFT" 5 (by decide) rfl

/-- Claim C10: a present-but-empty `ticker` parameter is treated exactly like
a missing one: HTTP 400 with the required-parameter body, for every lookup
function (so the lookup, and hence a provider session, is never used). -/
theorem C10_empty_ticker (lookup : String → LookupResult) :
    current_price_api lookup (some "") =
      ⟨400, [("error", JVal.s "Ticker parameter is required")]⟩ ∧
    current_price_api lookup (some "") = current_price_api lookup none :=
  ⟨rfl, rfl⟩
